import Mathlib

/-!
Verification of the BrainVoyager (BV) header codec and the MINC
geometry/normalization engine, embedded shallowly from the repository's
`nibabel/bv.py` and `nifti/minc.py`.

The embedding models machine integers as `Nat` with explicit `% 2 ^ w`,
buffers and streams as `List Nat` of byte values, and real-valued
quantities as `ℚ`.  Fallible operations return `Option` or `Except`.
-/

namespace BvLayout

/-! ### The BV layout engine (`BvFileHeader.__setitem__`)

A BV header owns a field layout (an ordered list of named fields, each a
fixed-width scalar or a variable-width zero-padded string) and a backing
buffer of raw bytes.  `_dtdefs` in `bv.py` declares little-endian `uint16`
and `float32` element types; header fields themselves are numeric scalars
or `S`-type byte strings, which we model as a 2-byte little-endian
unsigned field and variable-width string fields. -/

/-- Storage type of one header field: a variable-width byte-string slot of
`w` bytes, or a little-endian 16-bit unsigned integer (2 bytes). -/
inductive FTy : Type
  | str : Nat → FTy
  | u16 : FTy
deriving DecidableEq, Repr

/-- Width in bytes of a field slot. -/
def FTy.width : FTy → Nat
  | .str w => w
  | .u16 => 2

/-- One named field of the layout. -/
structure Field where
  name : String
  ty : FTy
deriving DecidableEq, Repr

/-- A field layout: the ordered list of fields; byte offsets are implied
by the prefix widths. -/
abbrev Layout := List Field

/-- A backing buffer: a list of byte values. -/
abbrev Buf := List Nat

/-- A field value: a byte string or a machine integer. -/
inductive Value : Type
  | vstr : List Nat → Value
  | vint : Nat → Value
deriving DecidableEq, Repr

/-- Total size in bytes of a layout. -/
def layoutSize (L : Layout) : Nat := (L.map (fun f => f.ty.width)).sum

/-- Strip trailing zero bytes, as reading an `S`-typed member of a
structured array does. -/
def stripTZ (bs : List Nat) : List Nat :=
  (bs.reverse.dropWhile (fun b => b = 0)).reverse

/-- The byte-string payload of a value (numeric values have none). -/
def Value.toStr : Value → List Nat
  | .vstr s => s
  | .vint _ => []

/-- The numeric payload of a value (string values have none). -/
def Value.toNat : Value → Nat
  | .vint n => n
  | .vstr _ => 0

/-- Decode the bytes of one field slot into its value: strings strip the
trailing zero padding, `u16` reads two little-endian bytes. -/
def decodeF : FTy → List Nat → Value
  | .str _, bs => .vstr (stripTZ bs)
  | .u16, bs => .vint (bs.headD 0 + 256 * bs.getD 1 0)

/-- Encode a value into the bytes of one field slot: strings are truncated
to the slot width and zero padded, `u16` stores two little-endian bytes of
the value mod 2 ^ 16. -/
def encodeF : FTy → Value → List Nat
  | .str w, v => v.toStr.take w ++ List.replicate (w - v.toStr.length) 0
  | .u16, v => [v.toNat % 256, v.toNat / 256 % 256]

/-- Read the named field from the buffer by walking the layout. -/
def getF : Layout → Buf → String → Option Value
  | [], _, _ => none
  | f :: fs, buf, k =>
    if f.name = k then some (decodeF f.ty (buf.take f.ty.width))
    else getF fs (buf.drop f.ty.width) k

/-- Write the named field into the buffer by walking the layout. -/
def setF : Layout → Buf → String → Value → Buf
  | [], buf, _, _ => buf
  | f :: fs, buf, k, v =>
    if f.name = k then encodeF f.ty v ++ buf.drop f.ty.width
    else buf.take f.ty.width ++ setF fs (buf.drop f.ty.width) k v

/-- Modelled from the spec: `update_template_dtype` is declared but left
abstract in `bv.py` (`raise NotImplementedError`); per §4.1 of the spec it
computes a new field layout with the named variable-width string field
resized to the value's required width, all other fields unchanged. -/
def update_template_dtype (L : Layout) (item : String) (v : Value) : Layout :=
  L.map (fun f =>
    if f.name = item then
      match f.ty with
      | .str _ => { f with ty := .str v.toStr.length }
      | t => { f with ty := t }
    else f)

/-- Look up the declared storage type of a field. -/
def lookupTy (L : Layout) (k : String) : Option FTy :=
  (L.find? (fun f => f.name = k)).map (fun f => f.ty)

/-- Whether a looked-up storage type is a string type
(`template_dtype[item].type == np.string_`). -/
def isStrTy : Option FTy → Bool
  | some (.str _) => true
  | _ => false

/-- The rebuild loop of `__setitem__`: for every key of the header, copy
its value from the old buffer into the (zero-initialized) new one. -/
def copyKeys (Lold Lnew : Layout) (old : Buf) (init : Buf) : Buf :=
  (Lold.map (fun f => f.name)).foldl
    (fun b k => setF Lnew b k ((getF Lold old k).getD (.vint 0))) init

/-- Embeds `BvFileHeader.__setitem__`: for a string field, re-derive the layout,
allocate a fresh zero buffer of the new total size, copy every field by
name, then perform the set; otherwise write directly. -/
def setitem (L : Layout) (buf : Buf) (item : String) (v : Value) :
    Layout × Buf :=
  if isStrTy (lookupTy L item) then
    let Lnew := update_template_dtype L item v
    let buf2 := copyKeys L Lnew buf (List.replicate (layoutSize Lnew) 0)
    (Lnew, setF Lnew buf2 item v)
  else
    (L, setF L buf item v)

/-- Well-formed buffer contents: every entry is a byte. -/
def WfBytes (buf : Buf) : Prop := ∀ b ∈ buf, b < 256

/-- A concrete two-field layout: a 3-byte string field `name` and a
little-endian `u16` field `count`. -/
def exampleLayout : Layout := [⟨"name", .str 3⟩, ⟨"count", .u16⟩]

/-- A concrete buffer for `exampleLayout`: `name = "abc"`, `count = 7`. -/
def exampleBuf : Buf := [97, 98, 99, 7, 0]

end BvLayout

namespace Bv

/-! ### The BV scaled I/O protocol (`bv.py`)

`_dtdefs` declares the two element-type codes of the format:
`1 ↦ uint16 little-endian`, `2 ↦ float32 little-endian`.  Array elements
are modelled by their bit patterns (a `Nat` below `2 ^ (8 * itemsize)`),
so that bit-identical round trips are exact statements; streams are byte
lists. -/

/-- Element types of the BV format (`_dtdefs`). -/
inductive Dt : Type
  | uint16 : Dt
  | float32 : Dt
deriving DecidableEq, Repr

/-- The code ↦ dtype table of `data_type_codes`. -/
def dtOfCode : Nat → Option Dt
  | 1 => some .uint16
  | 2 => some .float32
  | _ => none

/-- Bytes per element. -/
def Dt.itemsize : Dt → Nat
  | .uint16 => 2
  | .float32 => 4

/-- Errors surfaced by the embedded operations. -/
inductive Err : Type
  | headerDataError : Err
  | headerTypeError : Err
  | bvError : Err
deriving DecidableEq, Repr

/-- A Python value as it may be passed to `set_xflip` (whose argument is
compared with `==` against `True` and `False`). -/
inductive PyVal : Type
  | pbool : Bool → PyVal
  | pint : Int → PyVal
  | pnone : PyVal
  | pstr : String → PyVal
deriving DecidableEq, Repr

/-- The numeric value of a Python object when it is numeric: Python
booleans are the integers 1 and 0. -/
def PyVal.numVal : PyVal → Option Int
  | .pbool b => some (if b then 1 else 0)
  | .pint n => some n
  | _ => none

/-- Python `==`: numeric values compare by value (so `1 == True`),
otherwise equality of the objects themselves. -/
def pyEq (a b : PyVal) : Bool :=
  match a.numVal, b.numVal with
  | some x, some y => x = y
  | _, _ => a = b

/-- The state of a `BvFileHeader` that the scaled I/O protocol reads:
the `datatype` and `LRConvention` fields of `_structarr`, the data shape
and the data offset.  (`get_data_shape` is declared abstract in `bv.py`;
the shape is modelled from the spec as part of the header state.) -/
structure BvFileHeader : Type where
  datatype : Nat
  LRConvention : Nat
  shape : List Nat
  data_offset : Nat
deriving DecidableEq, Repr

/-- Embeds `get_data_dtype`: resolve the stored code through the registry
(an unknown code is a lookup error). -/
def get_data_dtype (h : BvFileHeader) : Option Dt := dtOfCode h.datatype

/-- Embeds `get_xflip`: stored `LRConvention` 1 is `True`, 2 is `False`, anything
else raises `BvError('Left-right convention is unknown!')`. -/
def get_xflip (h : BvFileHeader) : Except Err Bool :=
  if h.LRConvention = 1 then .ok true
  else if h.LRConvention = 2 then .ok false
  else .error .bvError

/-- Embeds `set_xflip`: `if xflip == True: 1 elif xflip == False: 2 else: 0`,
with Python `==` semantics. -/
def set_xflip (h : BvFileHeader) (xflip : PyVal) : BvFileHeader :=
  if pyEq xflip (.pbool true) then { h with LRConvention := 1 }
  else if pyEq xflip (.pbool false) then { h with LRConvention := 2 }
  else { h with LRConvention := 0 }

/-- Embeds `get_slope_inter`: scale factors are not implemented for BV files. -/
def get_slope_inter (_h : BvFileHeader) : Option ℚ × Option ℚ :=
  (none, none)

/-- Embeds `set_slope_inter`: only the identity scaling (`slope` absent or 1.0,
`inter` absent or 0) is accepted; anything else is a `HeaderTypeError`.
The header is returned untouched on success. -/
def set_slope_inter (h : BvFileHeader) (slope : Option ℚ)
    (inter : Option ℚ := none) : Except Err BvFileHeader :=
  if (slope = none ∨ slope = some 1) ∧ (inter = none ∨ inter = some 0) then
    .ok h
  else .error .headerTypeError

/-- Little-endian byte serialization of one element bit pattern. -/
def encodeElem (w : Nat) (x : Nat) : List Nat :=
  (List.range w).map (fun i => x / 256 ^ i % 256)

/-- Little-endian byte deserialization of one element bit pattern. -/
def decodeElem (bs : List Nat) : Nat :=
  bs.foldr (fun b acc => b + 256 * acc) 0

/-- Read `n` elements of `w` bytes each from the front of a byte list;
fails when the bytes run out (`array_from_file` cannot fill the shape). -/
def readElems (w : Nat) : Nat → List Nat → Option (List Nat)
  | 0, _ => some []
  | n + 1, bs =>
    if w ≤ bs.length then
      (readElems w n (bs.drop w)).map (fun rest => decodeElem (bs.take w) :: rest)
    else none

/-- Modelled from the spec: `array_from_file` (an external collaborator in
`volumeutils`) positions the stream at the offset and reads exactly
`shape`-sized, element-typed data in row-major order. -/
def array_from_file (shape : List Nat) (w : Nat) (offset : Nat)
    (s : List Nat) : Option (List Nat) :=
  readElems w shape.prod (s.drop offset)

/-- Embeds `raw_data_from_fileobj`: element type, shape and offset come from the
header; the payload is read untransformed. -/
def raw_data_from_fileobj (h : BvFileHeader) (s : List Nat) :
    Option (List Nat) :=
  match get_data_dtype h with
  | none => none
  | some dt => array_from_file h.shape dt.itemsize h.data_offset s

/-- Modelled from the spec: `apply_read_scaling` (external collaborator)
maps `value * slope + intercept` over the data. -/
def apply_read_scaling (data : List ℚ) (slope inter : ℚ) : List ℚ :=
  data.map (fun x => x * slope + inter)

/-- Embeds `data_from_fileobj`: read the raw data, then apply the header's
slope/intercept, defaulting absent values to 1.0 and 0.0. -/
def data_from_fileobj (h : BvFileHeader) (s : List Nat) :
    Option (List ℚ) :=
  (raw_data_from_fileobj h s).map (fun data =>
    let si := get_slope_inter h
    apply_read_scaling (data.map (fun n => (n : ℚ)))
      (si.1.getD 1) (si.2.getD 0))

/-- An array writer as returned by the negotiation collaborator: the
payload bytes it will emit and the slope/intercept it chose. -/
structure ArrayWriter : Type where
  bytes : List Nat
  slope : Option ℚ
  inter : Option ℚ
deriving DecidableEq, Repr

/-- Modelled from the spec: `make_array_writer` (the external
writer-negotiation collaborator in `arraywriters`).  For a format that can
store neither slope nor intercept it succeeds exactly when every element
is representable in the target element type without scaling — here, when
every bit pattern fits in the element width — and then emits the raw
little-endian bytes with the identity scaling `(1.0, 0.0)`. -/
def make_array_writer (data : List Nat) (dt : Dt)
    (_hasSlope _hasInter : Bool) : Except Err ArrayWriter :=
  if data.all (fun x => x < 256 ^ dt.itemsize) then
    .ok ⟨(data.map (encodeElem dt.itemsize)).flatten, some 1, some 0⟩
  else .error .headerTypeError

/-- Write `bytes` into stream `s` at `offset`, zero-padding when the
stream is shorter than the offset (`seek_tell` then `write`). -/
def writeAt (s : List Nat) (offset : Nat) (bytes : List Nat) : List Nat :=
  (s ++ List.replicate (offset - s.length) 0).take offset ++ bytes ++
    s.drop (offset + bytes.length)

/-- Embeds `data_to_fileobj`: validate the shape, negotiate a writer (a
`WriterError` is re-raised as `HeaderTypeError`), seek to the data offset
and emit the payload, then record the writer's slope/intercept in the
header.  The stream state is returned alongside the outcome. -/
def data_to_fileobj (h : BvFileHeader) (data : List Nat) (s : List Nat) :
    List Nat × Except Err BvFileHeader :=
  if data.length ≠ h.shape.prod then (s, .error .headerDataError)
  else
    match get_data_dtype h with
    | none => (s, .error .headerDataError)
    | some dt =>
      match make_array_writer data dt false false with
      | .error _ => (s, .error .headerTypeError)
      | .ok w =>
        let s2 := writeAt s h.data_offset w.bytes
        match set_slope_inter h w.slope w.inter with
        | .ok h2 => (s2, .ok h2)
        | .error e => (s2, .error e)

end Bv

namespace Minc

/-! ### The MINC geometry and normalization engine (`minc.py`)

Dimension variables carry `step`, `start` and `direction_cosines`
attributes; the image variable carries an element type, a dimension-name
list and optional `valid_range` / `valid_min`+`valid_max` attributes; the
auxiliary `image-max` / `image-min` variables are arrays over a leading
prefix of the image dimensions.  Real values are modelled as `ℚ`; the
raw data and the auxiliary arrays are functions from index tuples. -/

/-- One dimension variable of the MINC file. -/
structure MincDim : Type where
  step : ℚ
  start : ℚ
  direction_cosines : Fin 3 → ℚ

/-- MINC element types reachable through `_dt_dict` and the float
typecodes. -/
inductive MincDt : Type
  | u8 | i8 | u16 | i16 | u32 | i32 | f32 | f64
deriving DecidableEq, Repr

/-- Whether the element type is floating point. -/
def MincDt.isFloat : MincDt → Bool
  | .f32 => true
  | .f64 => true
  | _ => false

/-- The `np.iinfo(...).min` of an integer element type. -/
def MincDt.infoMin : MincDt → ℤ
  | .u8 => 0
  | .i8 => -128
  | .u16 => 0
  | .i16 => -32768
  | .u32 => 0
  | .i32 => -2147483648
  | .f32 => 0
  | .f64 => 0

/-- The `np.iinfo(...).max` of an integer element type. -/
def MincDt.infoMax : MincDt → ℤ
  | .u8 => 255
  | .i8 => 127
  | .u16 => 65535
  | .i16 => 32767
  | .u32 => 4294967295
  | .i32 => 2147483647
  | .f32 => 0
  | .f64 => 0

/-- Errors of the MINC engine: a `ValueError` or a `MincError`. -/
inductive MincErr : Type
  | valueError : MincErr
  | mincError : MincErr
deriving DecidableEq, Repr

/-- The state of a `MINCHeader` read by the engine: the dimension
variables (in image order), the element type, the image's dimension-name
list and optional range attributes, the dimension-name lists of the
auxiliary variables and their contents, indexed by leading index tuple. -/
structure MINCHeader : Type where
  dims : List MincDim
  dtype : MincDt
  imageDims : List String
  valid_range_attr : Option (ℚ × ℚ)
  valid_minmax_attr : Option (ℚ × ℚ)
  imageMaxDims : List String
  imageMinDims : List String
  imageMax : List Nat → ℚ
  imageMin : List Nat → ℚ

/-- Embeds `get_zooms`: each dimension's step. -/
def get_zooms (h : MINCHeader) : List ℚ := h.dims.map (fun d => d.step)

/-- The rotation matrix built by `get_best_affine`: start from `np.eye(3)`
and overwrite column `i` with dimension `i`'s direction cosines. -/
def rot_mat (dims : List MincDim) : Fin 3 → Fin 3 → ℚ := fun r c =>
  match dims.get? c with
  | some d => d.direction_cosines r
  | none => if r = c then 1 else 0

/-- The starts vector of `get_best_affine`: start from zeros and overwrite
entry `i` with dimension `i`'s start. -/
def startsVec (dims : List MincDim) : Fin 3 → ℚ := fun i =>
  match dims.get? i with
  | some d => d.start
  | none => 0

/-- The zoom (step) broadcast over columns in `rot_mat * zooms`. -/
def zoomAt (dims : List MincDim) : Fin 3 → ℚ := fun i =>
  match dims.get? i with
  | some d => d.step
  | none => 1

/-- Embeds `origin = np.dot(rot_mat, starts)`. -/
def originVec (dims : List MincDim) : Fin 3 → ℚ := fun r =>
  ∑ c : Fin 3, rot_mat dims r c * startsVec dims c

/-- Embeds `get_best_affine`: `aff = np.eye(4)`, `aff[:3,:3] = rot_mat * zooms`
(column-wise broadcast), `aff[:3,3] = origin`. -/
def get_best_affine (h : MINCHeader) : Fin 4 → Fin 4 → ℚ := fun r c =>
  if hr : (r : Nat) < 3 then
    if hc : (c : Nat) < 3 then
      rot_mat h.dims ⟨r, hr⟩ ⟨c, hc⟩ * zoomAt h.dims ⟨c, hc⟩
    else originVec h.dims ⟨r, hr⟩
  else if (r : Nat) = (c : Nat) then 1 else 0

/-- Embeds `_get_valid_range`: the image's `valid_range` attribute, else its
`valid_min`/`valid_max` attributes, else the element type's intrinsic
range; a resolved range outside the type range is a `ValueError`.
(`np.iinfo` itself rejects a floating-point element type.) -/
def get_valid_range (h : MINCHeader) : Except MincErr (ℚ × ℚ) :=
  if h.dtype.isFloat then .error .valueError
  else
    let lo : ℚ := (h.dtype.infoMin : ℚ)
    let hi : ℚ := (h.dtype.infoMax : ℚ)
    let vr := match h.valid_range_attr with
      | some r => r
      | none =>
        match h.valid_minmax_attr with
        | some r => r
        | none => (lo, hi)
    if vr.1 < lo ∨ vr.2 > hi then .error .valueError
    else .ok vr

/-- Embeds `np.clip(x, lo, hi)`. -/
def clip (x lo hi : ℚ) : ℚ := min hi (max lo x)

/-- Embeds `_norm_slice`: clip to the valid range, then map it affinely onto the
`[image-min, image-max]` interval of the slice at `sdef`. -/
def norm_slice (h : MINCHeader) (vr : ℚ × ℚ) (sdef : List Nat) (x : ℚ) : ℚ :=
  let imax := h.imageMax sdef
  let imin := h.imageMin sdef
  let sc := (imax - imin) / (vr.2 - vr.1)
  clip x vr.1 vr.2 * sc + (imin - vr.1 * sc)

/-- Embeds `_normalize`: floating data is returned unchanged; otherwise the
auxiliary dimension lists must agree with each other and be a leading
prefix of the image's; one or two scaling dimensions are normalized
slice-wise, any other count is a `MincError`. -/
def normalize (h : MINCHeader) (data : List Nat → ℚ) :
    Except MincErr (List Nat → ℚ) :=
  if h.dtype.isFloat then .ok data
  else if h.imageMaxDims ≠ h.imageMinDims then .error .valueError
  else
    let nscales := h.imageMaxDims.length
    if h.imageMaxDims ≠ h.imageDims.take nscales then .error .mincError
    else
      match get_valid_range h with
      | .error e => .error e
      | .ok vr =>
        if nscales = 1 then
          .ok (fun idx => norm_slice h vr (idx.take 1) (data idx))
        else if nscales = 2 then
          .ok (fun idx => norm_slice h vr (idx.take 2) (data idx))
        else .error .mincError

/-- Three dimension variables whose direction cosines form the identity
matrix, with steps 2.0 and starts 0. -/
def exampleDims : List MincDim :=
  [⟨2, 0, fun r => if r = 0 then 1 else 0⟩,
   ⟨2, 0, fun r => if r = 1 then 1 else 0⟩,
   ⟨2, 0, fun r => if r = 2 then 1 else 0⟩]

/-- A concrete header carrying `exampleDims`. -/
def exampleAffineHdr : MINCHeader :=
  ⟨exampleDims, .u8, ["zspace", "yspace", "xspace"], none, none, [], [],
   fun _ => 0, fun _ => 0⟩

/-- A concrete integer header with one scaling dimension, valid range
`[0, 2]` and `image-min`/`image-max` equal to `0`/`2` everywhere. -/
def exampleClipHdr : MINCHeader :=
  ⟨[], .u8, ["zspace", "xspace"], some (0, 2), none, ["zspace"],
   ["zspace"], fun _ => 2, fun _ => 0⟩

/-- A concrete integer header with one scaling dimension whose valid range
`[0, 10]` coincides with `image-min`/`image-max`. -/
def exampleIdHdr : MINCHeader :=
  ⟨[], .u8, ["zspace", "xspace"], some (0, 10), none, ["zspace"],
   ["zspace"], fun _ => 10, fun _ => 0⟩

/-- A concrete integer header whose auxiliary arrays have zero scaling
dimensions. -/
def exampleRank0Hdr : MINCHeader :=
  ⟨[], .u8, ["zspace"], some (0, 255), none, [], [],
   fun _ => 0, fun _ => 0⟩

end Minc

/-! ## Theorems -/

namespace Bv

/-- C5: for every BV header, `set_slope_inter(slope, inter)` succeeds
(returning without modifying the header) exactly when `slope` is `None` or
equal to 1.0 and `inter` is `None` or equal to 0; for every other pair it
raises a `HeaderTypeError`. -/
theorem C5_set_slope_inter_ok_iff (h : BvFileHeader)
    (slope inter : Option ℚ) :
    (set_slope_inter h slope inter = .ok h ↔
      ((slope = none ∨ slope = some 1) ∧ (inter = none ∨ inter = some 0))) ∧
    (set_slope_inter h slope inter = .error .headerTypeError ↔
      ¬ ((slope = none ∨ slope = some 1) ∧ (inter = none ∨ inter = some 0))) := by
  unfold set_slope_inter
  split_ifs with hc <;> simp [hc]

/-- C8: `get_xflip` raises a domain error (`BvError`) when the stored
`LRConvention` field is 0, returns `True` when it is 1, and returns
`False` when it is 2. -/
theorem C8_get_xflip_cases (h : BvFileHeader) :
    (h.LRConvention = 0 → get_xflip h = .error .bvError) ∧
    (h.LRConvention = 1 → get_xflip h = .ok true) ∧
    (h.LRConvention = 2 → get_xflip h = .ok false) := by
  refine ⟨fun hx => ?_, fun hx => ?_, fun hx => ?_⟩ <;>
    simp [get_xflip, hx]

/-- Witness for C8 at the three concrete stored values. -/
theorem C8_get_xflip_cases_witness :
    get_xflip ⟨1, 0, [], 0⟩ = .error .bvError ∧
    get_xflip ⟨1, 1, [], 0⟩ = .ok true ∧
    get_xflip ⟨1, 2, [], 0⟩ = .ok false :=
  ⟨(C8_get_xflip_cases ⟨1, 0, [], 0⟩).1 rfl,
   (C8_get_xflip_cases ⟨1, 1, [], 0⟩).2.1 rfl,
   (C8_get_xflip_cases ⟨1, 2, [], 0⟩).2.2 rfl⟩

/-- C9 counterexample: the integer input 1 is not the boolean `True`, yet
`set_xflip` stores 1 (because Python `1 == True`), not 0 as the claim
requires for non-boolean inputs. -/
theorem C9_counterexample :
    (set_xflip ⟨1, 0, [], 0⟩ (.pint 1)).LRConvention = 1 ∧
    (set_xflip ⟨1, 0, [], 0⟩ (.pint 1)).LRConvention ≠ 0 := by
  constructor
  · rfl
  · intro hc
    simp [set_xflip, pyEq, PyVal.numVal] at hc

/-- C9 (amended): `set_xflip` stores 1 when the input compares equal to
`True` under Python `==` (boolean `True` or integer 1), stores 2 when it
compares equal to `False` (boolean `False` or integer 0), and stores 0 for
every other input. -/
theorem C9_set_xflip_amended (h : BvFileHeader) (v : PyVal) :
    ((v = .pbool true ∨ v = .pint 1) → (set_xflip h v).LRConvention = 1) ∧
    ((v = .pbool false ∨ v = .pint 0) → (set_xflip h v).LRConvention = 2) ∧
    ((v ≠ .pbool true ∧ v ≠ .pint 1 ∧ v ≠ .pbool false ∧ v ≠ .pint 0) →
      (set_xflip h v).LRConvention = 0) := by
  rcases v with b | n | _ | s
  · cases b <;> simp [set_xflip, pyEq, PyVal.numVal]
  · by_cases h1 : n = 1
    · subst h1; simp [set_xflip, pyEq, PyVal.numVal]
    · by_cases h0 : n = 0
      · subst h0; simp [set_xflip, pyEq, PyVal.numVal]
      · simp [set_xflip, pyEq, PyVal.numVal, h1, h0]
  · simp [set_xflip, pyEq, PyVal.numVal]
  · simp [set_xflip, pyEq, PyVal.numVal]

/-- Witness for the amended C9 at the concrete inputs `True`, `False`,
`None` and the integer 1. -/
theorem C9_set_xflip_amended_witness :
    (set_xflip ⟨1, 0, [], 0⟩ (.pbool true)).LRConvention = 1 ∧
    (set_xflip ⟨1, 0, [], 0⟩ (.pbool false)).LRConvention = 2 ∧
    (set_xflip ⟨1, 0, [], 0⟩ .pnone).LRConvention = 0 ∧
    (set_xflip ⟨1, 0, [], 0⟩ (.pint 1)).LRConvention = 1 :=
  ⟨(C9_set_xflip_amended ⟨1, 0, [], 0⟩ (.pbool true)).1 (Or.inl rfl),
   (C9_set_xflip_amended ⟨1, 0, [], 0⟩ (.pbool false)).2.1 (Or.inl rfl),
   (C9_set_xflip_amended ⟨1, 0, [], 0⟩ .pnone).2.2
     ⟨by decide, by decide, by decide, by decide⟩,
   (C9_set_xflip_amended ⟨1, 0, [], 0⟩ (.pint 1)).1 (Or.inr rfl)⟩

theorem make_array_writer_ok {data : List Nat} {dt : Dt} {b1 b2 : Bool}
    {w : ArrayWriter} (hw : make_array_writer data dt b1 b2 = .ok w) :
    w.slope = some 1 ∧ w.inter = some 0 ∧
    w.bytes = (data.map (encodeElem dt.itemsize)).flatten ∧
    ∀ x ∈ data, x < 256 ^ dt.itemsize := by
  unfold make_array_writer at hw
  split_ifs at hw with hc
  cases hw
  refine ⟨rfl, rfl, rfl, ?_⟩
  simpa [List.all_eq_true] using hc

theorem set_slope_inter_identity (h : BvFileHeader) :
    set_slope_inter h (some 1) (some 0) = .ok h := by
  simp [set_slope_inter]

/-- C6: whenever `data_to_fileobj` fails with the type error raised when
the data cannot be represented without non-identity scaling, the error is
raised before anything is written: the stream is untouched. -/
theorem C6_error_before_write (h : BvFileHeader) (data s : List Nat)
    (e : Err) (herr : (data_to_fileobj h data s).2 = .error e) :
    (data_to_fileobj h data s).1 = s := by
  unfold data_to_fileobj at herr ⊢
  split_ifs at herr ⊢ with hlen
  · rfl
  · cases hdt : get_data_dtype h with
    | none => simp [hdt]
    | some dt =>
      simp only [hdt] at herr ⊢
      cases hw : make_array_writer data dt false false with
      | error e2 => simp [hw]
      | ok w =>
        exfalso
        obtain ⟨hs, hi, -, -⟩ := make_array_writer_ok hw
        simp only [hw, hs, hi, set_slope_inter_identity] at herr
        exact Except.noConfusion herr

/-- Witness for C6: a `uint16` header cannot hold the value 65536, the
write fails with a `HeaderTypeError`, and the stream still reads `[7]`. -/
theorem C6_error_before_write_witness :
    (data_to_fileobj ⟨1, 0, [1], 0⟩ [65536] [7]).2 = .error .headerTypeError ∧
    (data_to_fileobj ⟨1, 0, [1], 0⟩ [65536] [7]).1 = [7] :=
  ⟨rfl, C6_error_before_write ⟨1, 0, [1], 0⟩ [65536] [7] .headerTypeError rfl⟩

theorem encodeElem_length (w x : Nat) : (encodeElem w x).length = w := by
  simp [encodeElem]

theorem encodeElem_succ (w x : Nat) :
    encodeElem (w + 1) x = x % 256 :: encodeElem w (x / 256) := by
  unfold encodeElem
  rw [List.range_succ_eq_map]
  simp [List.map_map, Function.comp_def, pow_succ, Nat.div_div_eq_div_mul,
    Nat.mul_comm]

theorem decodeElem_cons (b : Nat) (bs : List Nat) :
    decodeElem (b :: bs) = b + 256 * decodeElem bs := rfl

theorem decodeElem_encodeElem (w x : Nat) (hx : x < 256 ^ w) :
    decodeElem (encodeElem w x) = x := by
  induction w generalizing x with
  | zero =>
    have : x = 0 := by simpa using hx
    simp [this, encodeElem, decodeElem]
  | succ w ih =>
    rw [encodeElem_succ, decodeElem_cons,
      ih (x / 256) (Nat.div_lt_iff_lt_mul (by norm_num) |>.mpr
        (by rw [← pow_succ]; exact hx))]
    exact Nat.mod_add_div x 256

theorem readElems_flatten (w : Nat) (data rest : List Nat)
    (hfit : ∀ x ∈ data, x < 256 ^ w) :
    readElems w data.length ((data.map (encodeElem w)).flatten ++ rest) =
      some data := by
  induction data with
  | nil => simp [readElems]
  | cons x xs ih =>
    simp only [List.map_cons, List.flatten_cons, List.length_cons,
      List.append_assoc]
    rw [readElems]
    have e1 : (encodeElem w x ++ ((xs.map (encodeElem w)).flatten ++ rest)).take w =
        encodeElem w x := List.take_left' (encodeElem_length w x)
    have e2 : (encodeElem w x ++ ((xs.map (encodeElem w)).flatten ++ rest)).drop w =
        (xs.map (encodeElem w)).flatten ++ rest :=
      List.drop_left' (encodeElem_length w x)
    rw [if_pos (by simp [encodeElem_length]), e1, e2,
      ih (fun y hy => hfit y (List.mem_cons_of_mem x hy)),
      decodeElem_encodeElem w x (hfit x (List.mem_cons_self x xs))]
    rfl

theorem writeAt_drop (s : List Nat) (off : Nat) (bytes : List Nat) :
    (writeAt s off bytes).drop off = bytes ++ s.drop (off + bytes.length) := by
  unfold writeAt
  rw [List.append_assoc]
  exact List.drop_left' (by simp; omega)

/-- C2: for every BV header with a valid element-type code and shape, and
every data array of that shape accepted by the writer negotiation, writing
with `data_to_fileobj` and reading the resulting stream back with
`raw_data_from_fileobj` returns the bit-identical array. -/
theorem C2_write_read_roundtrip (h : BvFileHeader) (dt : Dt)
    (data s : List Nat)
    (hdt : get_data_dtype h = some dt)
    (hshape : data.length = h.shape.prod)
    (hfit : ∀ x ∈ data, x < 256 ^ dt.itemsize) :
    (data_to_fileobj h data s).2 = .ok h ∧
    raw_data_from_fileobj h (data_to_fileobj h data s).1 = some data := by
  have hw : make_array_writer data dt false false =
      .ok ⟨(data.map (encodeElem dt.itemsize)).flatten, some 1, some 0⟩ := by
    unfold make_array_writer
    rw [if_pos (by simpa [List.all_eq_true] using hfit)]
  have hmain : data_to_fileobj h data s =
      (writeAt s h.data_offset ((data.map (encodeElem dt.itemsize)).flatten),
        .ok h) := by
    unfold data_to_fileobj
    rw [if_neg (fun hne => hne hshape)]
    simp only [hdt, hw, set_slope_inter_identity]
  rw [hmain]
  refine ⟨rfl, ?_⟩
  unfold raw_data_from_fileobj array_from_file
  rw [hdt, writeAt_drop, ← hshape]
  exact readElems_flatten dt.itemsize data _ hfit

/-- Witness for C2 on a concrete `uint16` header of shape `[2]` with data
offset 3, written over the one-byte stream `[9]`. -/
theorem C2_write_read_roundtrip_witness :
    (data_to_fileobj ⟨1, 0, [2], 3⟩ [7, 65535] [9]).2 = .ok ⟨1, 0, [2], 3⟩ ∧
    raw_data_from_fileobj ⟨1, 0, [2], 3⟩
      (data_to_fileobj ⟨1, 0, [2], 3⟩ [7, 65535] [9]).1 = some [7, 65535] :=
  C2_write_read_roundtrip ⟨1, 0, [2], 3⟩ .uint16 [7, 65535] [9] rfl rfl
    (by decide)

/-- C10: `get_slope_inter` returns `(None, None)` on every BV header
state, so `data_from_fileobj` always applies the default identity scaling
and returns values equal to the raw data read by `raw_data_from_fileobj`. -/
theorem C10_slope_inter_always_none (h : BvFileHeader) :
    get_slope_inter h = (none, none) ∧
    ∀ s, data_from_fileobj h s =
      (raw_data_from_fileobj h s).map (fun d => d.map (fun n => (n : ℚ))) := by
  refine ⟨rfl, fun s => ?_⟩
  unfold data_from_fileobj
  cases raw_data_from_fileobj h s <;>
    simp [get_slope_inter, apply_read_scaling]

end Bv

namespace Minc

/-- C4: `get_best_affine` produces a 4×4 matrix whose top-left 3×3 block
is the direction-cosine rotation matrix times `diag(steps)`, whose top
three entries of column 3 are the rotation applied to the starts vector,
and whose bottom row is `[0, 0, 0, 1]`. -/
theorem C4_get_best_affine_blocks (h : MINCHeader) (hd : h.dims.length = 3) :
    (∀ r c : Fin 3, get_best_affine h r.castSucc c.castSucc =
      (Matrix.of (rot_mat h.dims) * Matrix.diagonal (zoomAt h.dims)) r c) ∧
    (∀ r : Fin 3, get_best_affine h r.castSucc 3 =
      Matrix.mulVec (Matrix.of (rot_mat h.dims)) (startsVec h.dims) r) ∧
    (∀ c : Fin 4, get_best_affine h 3 c = if c = 3 then 1 else 0) := by
  have h3 : ¬(((3 : Fin 4) : Nat) < 3) := by decide
  refine ⟨fun r c => ?_, fun r => ?_, fun c => ?_⟩
  · rw [Matrix.mul_diagonal, Matrix.of_apply]
    fin_cases r <;> fin_cases c <;> simp [get_best_affine]
  · fin_cases r <;>
      simp [get_best_affine, h3, originVec, Matrix.mulVec, Matrix.dotProduct,
        Fin.sum_univ_three]
  · fin_cases c <;> simp [get_best_affine, h3] <;> decide

/-- Witness for C4: with identity direction cosines, steps 2.0 and starts
0, the affine's top-left block is `diag(2, 2, 2)`, the translation column
is zero and the bottom-right entry is 1. -/
theorem C4_get_best_affine_blocks_witness :
    get_best_affine exampleAffineHdr 0 0 = 2 ∧
    get_best_affine exampleAffineHdr 1 1 = 2 ∧
    get_best_affine exampleAffineHdr 2 2 = 2 ∧
    get_best_affine exampleAffineHdr 0 1 = 0 ∧
    get_best_affine exampleAffineHdr 0 3 = 0 ∧
    get_best_affine exampleAffineHdr 1 3 = 0 ∧
    get_best_affine exampleAffineHdr 2 3 = 0 ∧
    get_best_affine exampleAffineHdr 3 3 = 1 := by
  have t := C4_get_best_affine_blocks exampleAffineHdr rfl
  refine ⟨?_, ?_, ?_, ?_, ?_, ?_, ?_, ?_⟩
  · exact (t.1 0 0).trans (by
      norm_num [Matrix.mul_diagonal, Matrix.of_apply,
        show rot_mat exampleAffineHdr.dims 0 0 = 1 from rfl,
        show zoomAt exampleAffineHdr.dims 0 = 2 from rfl])
  · exact (t.1 1 1).trans (by
      norm_num [Matrix.mul_diagonal, Matrix.of_apply,
        show rot_mat exampleAffineHdr.dims 1 1 = 1 from rfl,
        show zoomAt exampleAffineHdr.dims 1 = 2 from rfl])
  · exact (t.1 2 2).trans (by
      norm_num [Matrix.mul_diagonal, Matrix.of_apply,
        show rot_mat exampleAffineHdr.dims 2 2 = 1 from rfl,
        show zoomAt exampleAffineHdr.dims 2 = 2 from rfl])
  · exact (t.1 0 1).trans (by
      norm_num [Matrix.mul_diagonal, Matrix.of_apply,
        show rot_mat exampleAffineHdr.dims 0 1 = 0 from rfl])
  · exact (t.2.1 0).trans (by
      simp [Matrix.mulVec, Matrix.dotProduct, Fin.sum_univ_three,
        startsVec, exampleAffineHdr, exampleDims])
  · exact (t.2.1 1).trans (by
      simp [Matrix.mulVec, Matrix.dotProduct, Fin.sum_univ_three,
        startsVec, exampleAffineHdr, exampleDims])
  · exact (t.2.1 2).trans (by
      simp [Matrix.mulVec, Matrix.dotProduct, Fin.sum_univ_three,
        startsVec, exampleAffineHdr, exampleDims])
  · exact (t.2.2 3).trans (by norm_num)

/-- C7: with an integer element type, normalization fails with the
unsupported-scaling-rank `MincError` whenever the auxiliary arrays'
dimensionality is neither 1 nor 2. -/
theorem C7_unsupported_scaling_rank (h : MINCHeader) (data : List Nat → ℚ)
    (hfl : h.dtype.isFloat = false)
    (heq : h.imageMaxDims = h.imageMinDims)
    (hpre : h.imageMaxDims = h.imageDims.take h.imageMaxDims.length)
    (vr : ℚ × ℚ) (hvr : get_valid_range h = .ok vr)
    (h1 : h.imageMaxDims.length ≠ 1) (h2 : h.imageMaxDims.length ≠ 2) :
    normalize h data = .error .mincError := by
  unfold normalize
  rw [if_neg (by simp [hfl]), if_neg (fun hc => hc heq),
    if_neg (fun hc => hc hpre)]
  simp only [hvr]
  rw [if_neg h1, if_neg h2]

/-- Witness for C7 at a concrete header whose auxiliary arrays have zero
scaling dimensions. -/
theorem C7_unsupported_scaling_rank_witness :
    normalize exampleRank0Hdr (fun _ => 0) = .error .mincError :=
  C7_unsupported_scaling_rank exampleRank0Hdr (fun _ => 0) rfl rfl rfl
    (0, 255) rfl (by decide) (by decide)

theorem norm_slice_identity (h : MINCHeader) (vr : ℚ × ℚ) (sdef : List Nat)
    (x : ℚ) (hmin : h.imageMin sdef = vr.1) (hmax : h.imageMax sdef = vr.2)
    (hlo : vr.1 ≤ x) (hhi : x ≤ vr.2) :
    norm_slice h vr sdef x = x := by
  simp only [norm_slice, clip]
  rw [hmin, hmax]
  rcases eq_or_ne (vr.2 - vr.1) 0 with h0 | h0
  · have h21 : vr.2 = vr.1 := sub_eq_zero.mp h0
    have hx : x = vr.1 := le_antisymm (h21 ▸ hhi) hlo
    rw [h0, zero_div, hx, h21]
    simp
  · rw [div_self h0, max_eq_right hlo, min_eq_right hhi]
    ring

/-- C3 (amended): for an integer element type with scaling rank 1 or 2,
`_normalize` returns the floating-point array in which each output value
is `clip(raw, valid_range) * scale + (imin - valid_min * scale)` with
`scale = (imax - imin) / (valid_max - valid_min)` taken at the leading
index tuple; and where `valid_range` coincides with `[imin, imax]` and the
raw value lies inside the valid range, the output equals the raw value
cast to float.  (The unconditional identity of the original claim fails
when a raw value lies outside the valid range, see the counterexample.) -/
theorem C3_normalize_scaling (h : MINCHeader) (data : List Nat → ℚ)
    (hfl : h.dtype.isFloat = false)
    (heq : h.imageMaxDims = h.imageMinDims)
    (hpre : h.imageMaxDims = h.imageDims.take h.imageMaxDims.length)
    (vr : ℚ × ℚ) (hvr : get_valid_range h = .ok vr)
    (hk : h.imageMaxDims.length = 1 ∨ h.imageMaxDims.length = 2) :
    ∃ out, normalize h data = .ok out ∧
      (∀ idx : List Nat,
        out idx =
          clip (data idx) vr.1 vr.2 *
              ((h.imageMax (idx.take h.imageMaxDims.length) -
                  h.imageMin (idx.take h.imageMaxDims.length)) /
                (vr.2 - vr.1)) +
            (h.imageMin (idx.take h.imageMaxDims.length) -
              vr.1 *
                ((h.imageMax (idx.take h.imageMaxDims.length) -
                    h.imageMin (idx.take h.imageMaxDims.length)) /
                  (vr.2 - vr.1)))) ∧
      (∀ idx : List Nat,
        h.imageMin (idx.take h.imageMaxDims.length) = vr.1 →
        h.imageMax (idx.take h.imageMaxDims.length) = vr.2 →
        vr.1 ≤ data idx → data idx ≤ vr.2 → out idx = data idx) := by
  have hmain : normalize h data =
      .ok (fun idx =>
        norm_slice h vr (idx.take h.imageMaxDims.length) (data idx)) := by
    unfold normalize
    rw [if_neg (by simp [hfl]), if_neg (fun hc => hc heq),
      if_neg (fun hc => hc hpre)]
    simp only [hvr]
    rcases hk with hk | hk <;> rw [hk] <;> norm_num
  refine ⟨_, hmain, fun idx => ?_,
    fun idx h1 h2 h3 h4 => norm_slice_identity h vr _ (data idx) h1 h2 h3 h4⟩
  rfl

/-- C3 counterexample: on a header whose valid range `[0, 2]` equals
`[image-min, image-max]` everywhere, the raw value 5 lies outside the
valid range, is clipped, and normalizes to 2 — not to the raw value 5
cast to float as the original claim requires. -/
theorem C3_counterexample :
    (normalize exampleClipHdr (fun _ => 5)).map (fun out => out [0, 0]) =
      .ok 2 ∧ (2 : ℚ) ≠ 5 := by
  constructor
  · simp [normalize, get_valid_range, norm_slice, clip, exampleClipHdr,
      MincDt.isFloat, MincDt.infoMin, MincDt.infoMax, Except.map]
    norm_num
  · norm_num

/-- Witness for the amended C3 on a concrete rank-1 header with valid
range `[0, 10]` equal to the auxiliary min/max: the in-range raw value 3
normalizes to itself. -/
theorem C3_normalize_scaling_witness :
    (normalize exampleIdHdr (fun _ => 3)).map (fun out => out [0, 0]) =
      .ok 3 := by
  obtain ⟨out, hok, -, hid⟩ :=
    C3_normalize_scaling exampleIdHdr (fun _ => 3) rfl rfl rfl (0, 10)
      rfl (Or.inl rfl)
  rw [hok]
  have h3 : out [0, 0] = 3 :=
    hid [0, 0] rfl rfl (by norm_num) (by norm_num)
  simp [Except.map, h3]

end Minc

namespace BvLayout

theorem dropWhile_length_le (p : Nat → Bool) (l : List Nat) :
    (l.dropWhile p).length ≤ l.length := by
  induction l with
  | nil => simp
  | cons a l ih =>
    rw [List.dropWhile_cons]
    split_ifs with h
    · exact ih.trans (Nat.le_succ _)
    · simp

theorem stripTZ_length_le (bs : List Nat) : (stripTZ bs).length ≤ bs.length := by
  unfold stripTZ
  simpa using dropWhile_length_le (fun b => decide (b = 0)) bs.reverse

theorem stripTZ_padding (bs : List Nat) :
    stripTZ bs ++ List.replicate (bs.length - (stripTZ bs).length) 0 = bs := by
  unfold stripTZ
  have hsplit := List.takeWhile_append_dropWhile
    (p := fun b => decide (b = 0)) (l := bs.reverse)
  have htw : bs.reverse.takeWhile (fun b => decide (b = 0)) =
      List.replicate (bs.reverse.takeWhile (fun b => decide (b = 0))).length 0 := by
    apply List.eq_replicate_of_mem
    intro b hb
    have := List.mem_takeWhile_imp hb
    simpa using this
  have h1 : (bs.reverse.takeWhile (fun b => decide (b = 0))).length +
      (bs.reverse.dropWhile (fun b => decide (b = 0))).length = bs.length := by
    rw [← List.length_append, hsplit, List.length_reverse]
  have hlen : (bs.reverse.takeWhile (fun b => decide (b = 0))).length =
      bs.length -
        ((bs.reverse.dropWhile (fun b => decide (b = 0))).reverse).length := by
    rw [List.length_reverse]
    omega
  calc (bs.reverse.dropWhile (fun b => decide (b = 0))).reverse ++
        List.replicate (bs.length -
          ((bs.reverse.dropWhile (fun b => decide (b = 0))).reverse).length) 0
      = (bs.reverse.dropWhile (fun b => decide (b = 0))).reverse ++
        (bs.reverse.takeWhile (fun b => decide (b = 0))).reverse := by
        rw [← hlen]
        congr 1
        rw [htw]
        simp [List.reverse_replicate]
    _ = ((bs.reverse.takeWhile (fun b => decide (b = 0)) ++
          bs.reverse.dropWhile (fun b => decide (b = 0))).reverse) := by
        rw [List.reverse_append]
    _ = bs := by rw [hsplit, List.reverse_reverse]

theorem encodeF_length (ty : FTy) (v : Value) :
    (encodeF ty v).length = ty.width := by
  cases ty with
  | str w => simp [encodeF, FTy.width]; omega
  | u16 => rfl

theorem encodeF_decodeF (ty : FTy) (bs : List Nat)
    (hlen : bs.length = ty.width) (hwf : ∀ b ∈ bs, b < 256) :
    encodeF ty (decodeF ty bs) = bs := by
  cases ty with
  | str w =>
    simp only [FTy.width] at hlen
    simp only [decodeF, encodeF, Value.toStr]
    rw [List.take_of_length_le (le_of_le_of_eq (stripTZ_length_le bs) hlen),
      ← hlen]
    exact stripTZ_padding bs
  | u16 =>
    match bs, hlen with
    | [b0, b1], _ =>
      have h0 : b0 < 256 := hwf b0 (by simp)
      have h1 : b1 < 256 := hwf b1 (by simp)
      simp only [decodeF, encodeF, Value.toNat, List.headD, List.getD]
      norm_num
      constructor
      · omega
      · omega

theorem setF_length (L : Layout) (buf : Buf) (k : String) (v : Value)
    (h : buf.length = layoutSize L) : (setF L buf k v).length = buf.length := by
  induction L generalizing buf with
  | nil => rfl
  | cons f fs ih =>
    have hw : f.ty.width ≤ buf.length := by
      simp [layoutSize] at h
      omega
    rw [setF]
    split_ifs with hname
    · simp [encodeF_length]
      omega
    · have hdrop : (buf.drop f.ty.width).length = layoutSize fs := by
        simp [layoutSize] at h ⊢
        omega
      simp [ih (buf.drop f.ty.width) hdrop]
      omega

theorem getF_setF_same (L : Layout) (buf : Buf) (k : String) (v : Value)
    (ty : FTy) (h : buf.length = layoutSize L)
    (hty : lookupTy L k = some ty) :
    getF L (setF L buf k v) k = some (decodeF ty (encodeF ty v)) := by
  induction L generalizing buf with
  | nil => simp [lookupTy] at hty
  | cons f fs ih =>
    have hw : f.ty.width ≤ buf.length := by
      simp [layoutSize] at h
      omega
    by_cases hname : f.name = k
    · have hty2 : ty = f.ty := by
        simp [lookupTy, List.find?_cons, hname] at hty
        exact hty.symm
      rw [setF, if_pos hname, getF, if_pos hname,
        List.take_left' (encodeF_length f.ty v), hty2]
    · have hty2 : lookupTy fs k = some ty := by
        simpa [lookupTy, List.find?_cons, hname] using hty
      have hdrop : (buf.drop f.ty.width).length = layoutSize fs := by
        simp [layoutSize] at h ⊢
        omega
      rw [setF, if_neg hname, getF, if_neg hname,
        List.drop_left' (by simp [List.length_take]; omega),
        ih (buf.drop f.ty.width) hdrop hty2]

theorem getF_setF_other (L : Layout) (buf : Buf) (k k2 : String) (v : Value)
    (hne : k2 ≠ k) (h : buf.length = layoutSize L) :
    getF L (setF L buf k v) k2 = getF L buf k2 := by
  induction L generalizing buf with
  | nil => rfl
  | cons f fs ih =>
    have hw : f.ty.width ≤ buf.length := by
      simp [layoutSize] at h
      omega
    have hdrop : (buf.drop f.ty.width).length = layoutSize fs := by
      simp [layoutSize] at h ⊢
      omega
    by_cases hname : f.name = k
    · have hname2 : ¬ f.name = k2 := by
        rw [hname]
        exact fun hc => hne hc.symm
      rw [setF, if_pos hname, getF, if_neg hname2, getF, if_neg hname2,
        List.drop_left' (encodeF_length f.ty v)]
    · rw [setF, if_neg hname]
      by_cases hname2 : f.name = k2
      · rw [getF, if_pos hname2, getF, if_pos hname2,
          List.take_left'
            (show (buf.take f.ty.width).length = f.ty.width by
              simp [List.length_take]; omega)]
      · rw [getF, if_neg hname2, getF, if_neg hname2,
          List.drop_left' (by simp [List.length_take]; omega),
          ih (buf.drop f.ty.width) hdrop]

theorem getF_none_of_not_mem (L : Layout) (buf : Buf) (k : String)
    (hk : k ∉ L.map (fun f => f.name)) : getF L buf k = none := by
  induction L generalizing buf with
  | nil => rfl
  | cons f fs ih =>
    simp only [List.map_cons, List.mem_cons, not_or] at hk
    rw [getF, if_neg (fun hc => hk.1 hc.symm)]
    exact ih _ hk.2

theorem lookupTy_isSome_of_mem (L : Layout) (k : String)
    (hk : k ∈ L.map (fun f => f.name)) : ∃ ty, lookupTy L k = some ty := by
  induction L with
  | nil => simp at hk
  | cons f fs ih =>
    by_cases hname : f.name = k
    · exact ⟨f.ty, by simp [lookupTy, List.find?_cons, hname]⟩
    · simp only [List.map_cons, List.mem_cons] at hk
      rcases hk with hk | hk
      · exact absurd hk.symm hname
      · obtain ⟨ty, hty⟩ := ih hk
        exact ⟨ty, by simpa [lookupTy, List.find?_cons, hname] using hty⟩

theorem getF_slot (L : Layout) (buf : Buf) (k : String) (ty : FTy)
    (h : buf.length = layoutSize L) (hwf : ∀ b ∈ buf, b < 256)
    (hty : lookupTy L k = some ty) :
    ∃ bs, getF L buf k = some (decodeF ty bs) ∧ bs.length = ty.width ∧
      ∀ b ∈ bs, b < 256 := by
  induction L generalizing buf with
  | nil => simp [lookupTy] at hty
  | cons f fs ih =>
    have hw : f.ty.width ≤ buf.length := by
      simp [layoutSize] at h
      omega
    by_cases hname : f.name = k
    · have hty2 : ty = f.ty := by
        simp [lookupTy, List.find?_cons, hname] at hty
        exact hty.symm
      refine ⟨buf.take f.ty.width, ?_, ?_, ?_⟩
      · rw [getF, if_pos hname, hty2]
      · rw [hty2]
        simp [List.length_take]
        omega
      · intro b hb
        exact hwf b (List.take_subset _ _ hb)
    · have hty2 : lookupTy fs k = some ty := by
        simpa [lookupTy, List.find?_cons, hname] using hty
      have hdrop : (buf.drop f.ty.width).length = layoutSize fs := by
        simp [layoutSize] at h ⊢
        omega
      obtain ⟨bs, h1, h2, h3⟩ := ih (buf.drop f.ty.width) hdrop
        (fun b hb => hwf b (List.drop_subset _ _ hb)) hty2
      exact ⟨bs, by rw [getF, if_neg hname]; exact h1, h2, h3⟩

theorem foldl_setF_length (Lnew : Layout) (ks : List String)
    (val : String → Value) (init : Buf)
    (hlen : init.length = layoutSize Lnew) :
    (ks.foldl (fun b k2 => setF Lnew b k2 (val k2)) init).length =
      init.length := by
  induction ks generalizing init with
  | nil => rfl
  | cons k0 ks ih =>
    rw [List.foldl_cons, ih _ (by rw [setF_length _ _ _ _ hlen]; exact hlen),
      setF_length _ _ _ _ hlen]

theorem getF_foldl_not_mem (Lnew : Layout) (ks : List String)
    (val : String → Value) (init : Buf) (k : String)
    (hlen : init.length = layoutSize Lnew) (hk : k ∉ ks) :
    getF Lnew (ks.foldl (fun b k2 => setF Lnew b k2 (val k2)) init) k =
      getF Lnew init k := by
  induction ks generalizing init with
  | nil => rfl
  | cons k0 ks ih =>
    simp only [List.mem_cons, not_or] at hk
    rw [List.foldl_cons,
      ih _ (by rw [setF_length _ _ _ _ hlen]; exact hlen) hk.2,
      getF_setF_other _ _ _ _ _ hk.1 hlen]

theorem getF_foldl_mem (Lnew : Layout) (ks : List String)
    (val : String → Value) (init : Buf) (k : String) (ty : FTy)
    (hlen : init.length = layoutSize Lnew) (hnd : ks.Nodup) (hk : k ∈ ks)
    (hty : lookupTy Lnew k = some ty) :
    getF Lnew (ks.foldl (fun b k2 => setF Lnew b k2 (val k2)) init) k =
      some (decodeF ty (encodeF ty (val k))) := by
  induction ks generalizing init with
  | nil => simp at hk
  | cons k0 ks ih =>
    have hlen2 : (setF Lnew init k0 (val k0)).length = layoutSize Lnew := by
      rw [setF_length _ _ _ _ hlen]
      exact hlen
    rw [List.foldl_cons]
    by_cases hk0 : k = k0
    · subst hk0
      have hnotin : k ∉ ks := (List.nodup_cons.mp hnd).1
      rw [getF_foldl_not_mem _ _ _ _ _ hlen2 hnotin,
        getF_setF_same _ _ _ _ _ hlen hty]
    · have hkin : k ∈ ks := by
        rcases List.mem_cons.mp hk with hc | hc
        · exact absurd hc hk0
        · exact hc
      exact ih _ hlen2 (List.nodup_cons.mp hnd).2 hkin

theorem update_cons (f : Field) (fs : List Field) (item : String)
    (v : Value) :
    update_template_dtype (f :: fs) item v =
      (if f.name = item then
        (match f.ty with
         | .str _ => { f with ty := .str v.toStr.length }
         | t => { f with ty := t })
       else f) :: update_template_dtype fs item v := rfl

theorem update_head_name (f : Field) (item : String) (v : Value) :
    (if f.name = item then
      (match f.ty with
       | FTy.str _ => { f with ty := FTy.str v.toStr.length }
       | t => { f with ty := t })
     else f).name = f.name := by
  split_ifs
  · cases f.ty <;> rfl
  · rfl

theorem lookupTy_cons (g : Field) (gs : List Field) (k : String) :
    lookupTy (g :: gs) k =
      if g.name = k then some g.ty else lookupTy gs k := by
  by_cases h : g.name = k <;> simp [lookupTy, List.find?_cons, h]

theorem update_names (L : Layout) (item : String) (v : Value) :
    (update_template_dtype L item v).map (fun f => f.name) =
      L.map (fun f => f.name) := by
  induction L with
  | nil => rfl
  | cons f fs ih =>
    rw [update_cons, List.map_cons, List.map_cons, ih, update_head_name]

theorem lookupTy_update_other (L : Layout) (item : String) (v : Value)
    (k : String) (hk : k ≠ item) :
    lookupTy (update_template_dtype L item v) k = lookupTy L k := by
  induction L with
  | nil => rfl
  | cons f fs ih =>
    rw [update_cons, lookupTy_cons, lookupTy_cons, update_head_name]
    by_cases hname : f.name = k
    · have hni : ¬ f.name = item := fun hc => hk (by rw [← hname, hc])
      rw [if_pos hname, if_pos hname, if_neg hni]
    · rw [if_neg hname, if_neg hname, ih]

theorem lookupTy_update_item (L : Layout) (item : String) (v : Value)
    (w : Nat) (hty : lookupTy L item = some (.str w)) :
    lookupTy (update_template_dtype L item v) item =
      some (.str v.toStr.length) := by
  induction L with
  | nil => simp [lookupTy] at hty
  | cons f fs ih =>
    rw [update_cons, lookupTy_cons, update_head_name]
    by_cases hname : f.name = item
    · have hfty : f.ty = .str w := by
        rw [lookupTy_cons, if_pos hname] at hty
        simpa using hty
      rw [if_pos hname, if_pos hname, hfty]
    · rw [if_neg hname]
      apply ih
      rw [lookupTy_cons, if_neg hname] at hty
      exact hty

theorem copyKeys_length (Lold Lnew : Layout) (old : Buf) (init : Buf)
    (hlen : init.length = layoutSize Lnew) :
    (copyKeys Lold Lnew old init).length = init.length := by
  unfold copyKeys
  exact foldl_setF_length Lnew (Lold.map (fun f => f.name))
    (fun k2 => (getF Lold old k2).getD (.vint 0)) init hlen

theorem getF_copyKeys_not_mem (Lold Lnew : Layout) (old : Buf) (init : Buf)
    (k : String) (hlen : init.length = layoutSize Lnew)
    (hk : k ∉ Lold.map (fun f => f.name)) :
    getF Lnew (copyKeys Lold Lnew old init) k = getF Lnew init k := by
  unfold copyKeys
  exact getF_foldl_not_mem Lnew (Lold.map (fun f => f.name))
    (fun k2 => (getF Lold old k2).getD (.vint 0)) init k hlen hk

theorem getF_copyKeys_mem (Lold Lnew : Layout) (old : Buf) (init : Buf)
    (k : String) (ty : FTy)
    (hlen : init.length = layoutSize Lnew)
    (hnd : (Lold.map (fun f => f.name)).Nodup)
    (hk : k ∈ Lold.map (fun f => f.name))
    (hty : lookupTy Lnew k = some ty) :
    getF Lnew (copyKeys Lold Lnew old init) k =
      some (decodeF ty (encodeF ty ((getF Lold old k).getD (.vint 0)))) := by
  unfold copyKeys
  exact getF_foldl_mem Lnew (Lold.map (fun f => f.name))
    (fun k2 => (getF Lold old k2).getD (.vint 0)) init k ty hlen hnd hk hty

/-- C1: assigning a string value to a variable-width string field through
`__setitem__` rebuilds the layout and buffer, after which the field reads
back the assigned value and every other field's value is unchanged. -/
theorem C1_setitem_frame (L : Layout) (buf : Buf) (s : String)
    (vs : List Nat) (w : Nat)
    (hnd : (L.map (fun f => f.name)).Nodup)
    (hlen : buf.length = layoutSize L)
    (hwf : WfBytes buf)
    (hs : lookupTy L s = some (.str w))
    (hv : stripTZ vs = vs) :
    getF (setitem L buf s (.vstr vs)).1 (setitem L buf s (.vstr vs)).2 s =
      some (.vstr vs) ∧
    ∀ t, t ≠ s →
      getF (setitem L buf s (.vstr vs)).1 (setitem L buf s (.vstr vs)).2 t =
        getF L buf t := by
  have hstr : isStrTy (lookupTy L s) = true := by rw [hs]; rfl
  have hsetitem : setitem L buf s (.vstr vs) =
      (update_template_dtype L s (.vstr vs),
        setF (update_template_dtype L s (.vstr vs))
          (copyKeys L (update_template_dtype L s (.vstr vs)) buf
            (List.replicate
              (layoutSize (update_template_dtype L s (.vstr vs))) 0))
          s (.vstr vs)) := by
    simp only [setitem, hstr, if_true]
  have hnames := update_names L s (.vstr vs)
  have hinit : (List.replicate
      (layoutSize (update_template_dtype L s (.vstr vs))) 0).length =
      layoutSize (update_template_dtype L s (.vstr vs)) := by simp
  have hbuf2 : (copyKeys L (update_template_dtype L s (.vstr vs)) buf
      (List.replicate
        (layoutSize (update_template_dtype L s (.vstr vs))) 0)).length =
      layoutSize (update_template_dtype L s (.vstr vs)) :=
    (copyKeys_length _ _ _ _ hinit).trans hinit
  have hsnew : lookupTy (update_template_dtype L s (.vstr vs)) s =
      some (.str vs.length) :=
    lookupTy_update_item L s (.vstr vs) w hs
  constructor
  · rw [hsetitem]
    dsimp only
    rw [getF_setF_same _ _ _ _ _ hbuf2 hsnew]
    congr 1
    simp [encodeF, decodeF, Value.toStr, List.take_length, hv]
  · intro t hts
    rw [hsetitem]
    dsimp only
    rw [getF_setF_other _ _ _ _ _ hts hbuf2]
    by_cases htm : t ∈ L.map (fun f => f.name)
    · obtain ⟨tyOld, hty⟩ := lookupTy_isSome_of_mem L t htm
      have htynew : lookupTy (update_template_dtype L s (.vstr vs)) t =
          some tyOld := by
        rw [lookupTy_update_other L s (.vstr vs) t hts]
        exact hty
      rw [getF_copyKeys_mem L _ buf _ t tyOld hinit hnd htm htynew]
      obtain ⟨bs, hbs1, hbs2, hbs3⟩ := getF_slot L buf t tyOld hlen hwf hty
      rw [hbs1, Option.getD_some, encodeF_decodeF tyOld bs hbs2 hbs3]
    · rw [getF_copyKeys_not_mem L _ buf _ t hinit htm,
        getF_none_of_not_mem _ _ _ (by rwa [hnames]),
        getF_none_of_not_mem _ _ _ htm]

/-- Witness for C1: resizing the string field `name` from "abc" to a
5-byte value preserves `count = 7` and `name` reads back the new value. -/
theorem C1_setitem_frame_witness :
    getF (setitem exampleLayout exampleBuf "name"
        (.vstr [100, 101, 102, 103, 104])).1
      (setitem exampleLayout exampleBuf "name"
        (.vstr [100, 101, 102, 103, 104])).2 "name" =
      some (.vstr [100, 101, 102, 103, 104]) ∧
    getF (setitem exampleLayout exampleBuf "name"
        (.vstr [100, 101, 102, 103, 104])).1
      (setitem exampleLayout exampleBuf "name"
        (.vstr [100, 101, 102, 103, 104])).2 "count" =
      getF exampleLayout exampleBuf "count" ∧
    getF exampleLayout exampleBuf "count" = some (.vint 7) := by
  have t := C1_setitem_frame exampleLayout exampleBuf "name"
    [100, 101, 102, 103, 104] 3 (by decide) rfl
    (by intro b hb; simp [exampleBuf] at hb; rcases hb with h | h | h | h | h <;>
      simp [h]) rfl rfl
  exact ⟨t.1, t.2 "count" (by decide), rfl⟩

end BvLayout
